import Mathlib

/-!
Verification of the retrieval and answer-safety core of the AI customer
support service (ai_engine).  The Python sources are shallowly embedded:

* `float` values are modelled as exact rationals (`ℚ`);
* the FAISS flat-L2 index is modelled as the list of its stored vectors,
  `index.ntotal` becoming the length of that list; FAISS returns squared L2
  distances, modelled by `sqDist`, and delivers neighbours in ascending
  distance order, modelled by a sort of the (distance, position) pairs;
* the embedding model (`sentence-transformers`, an external collaborator)
  is an opaque parameter `embed : String → List ℚ`;
* the persisted snapshot (`faiss_index.bin` + `metadata.json`) is the
  `IndexState` pair; saving persists the pair, loading reads it back, so in
  the model `save` is the identity and `load` only applies the consistency
  check from `load_index_and_metadata`.
-/

/-- One metadata entry, as built in `rag/pipeline.py` (`index_document`):
a dict with keys `document_id`, `chunk_id`, `title`, `text`. -/
structure ChunkMeta where
  document_id : Int
  chunk_id : Int
  title : String
  text : String
deriving DecidableEq, Repr, Inhabited

/-- A search result: a copy of a metadata dict with a `score` key added
(`vector_store.py`, `search_embeddings`). -/
structure Hit where
  meta : ChunkMeta
  score : ℚ
deriving DecidableEq, Repr

/-- The persisted snapshot: FAISS vectors plus the parallel metadata list. -/
structure IndexState where
  vectors : List (List ℚ)
  metadata : List ChunkMeta
deriving DecidableEq, Repr

/-- Constant `EMBEDDING_DIM` from `embeddings/embedder.py`. -/
def EMBEDDING_DIM : ℕ := 384

/-- Function `_empty_index()` paired with an empty metadata list. -/
def emptyIndex : IndexState := ⟨[], []⟩

/-- Function `load_index_and_metadata` (`vector_store.py` lines 24-47): load the two
persisted parts; if `index.ntotal != len(metadata)` reset both to empty. -/
def load_index_and_metadata (s : IndexState) : IndexState :=
  if s.vectors.length = s.metadata.length then s else emptyIndex

/-- Function `save_index_and_metadata` (`vector_store.py` lines 51-57): persist the
pair; in the model the persisted state is the pair itself. -/
def save_index_and_metadata (s : IndexState) : IndexState := s

/-- Function `add_embeddings` (`vector_store.py` lines 61-83): load, check that the
embedding matrix width equals `EMBEDDING_DIM` (raising `ValueError`
otherwise, with no partial write), append vectors and metadata, save.
A `(N, D)` numpy array is a list of `N` rows all of length `D`. -/
def add_embeddings (embs : List (List ℚ)) (metas : List ChunkMeta)
    (s : IndexState) : Except String IndexState :=
  let t := load_index_and_metadata s
  if embs.all (fun e => e.length = EMBEDDING_DIM) then
    Except.ok (save_index_and_metadata ⟨t.vectors ++ embs, t.metadata ++ metas⟩)
  else
    Except.error "Embedding dimension mismatch"

/-- Function `rebuild_index` (`vector_store.py` lines 116-134): build a brand-new
index by re-embedding every metadata entry text, then save.  (For empty
metadata the code skips the `add` call, which equals mapping over `[]`.) -/
def rebuild_index (embed : String → List ℚ) (metadata : List ChunkMeta) :
    IndexState :=
  save_index_and_metadata ⟨metadata.map (fun m => embed m.text), metadata⟩

/-- Function `delete_document` (`vector_store.py` lines 86-113): load, drop every
metadata entry of the document; if nothing changed return without saving
(the persisted snapshot stays exactly as it was), otherwise rebuild. -/
def delete_document (embed : String → List ℚ) (document_id : Int)
    (s : IndexState) : IndexState :=
  let t := load_index_and_metadata s
  let newMetadata := t.metadata.filter (fun m => m.document_id != document_id)
  if newMetadata.length = t.metadata.length then s
  else rebuild_index embed newMetadata

/-- Squared L2 distance, as reported by a `faiss.IndexFlatL2` search. -/
def sqDist (q v : List ℚ) : ℚ :=
  ((List.zip q v).map (fun p => (p.1 - p.2) ^ 2)).sum

/-- The hard-coded section-header markers of `search_embeddings`. -/
def sectionKeywords : List String :=
  ["evaluation metrics:", "code:", "database:", "logging:", "deployment:",
   "optimization:"]

/-- Occurrence of `needle` at the head of some suffix of `hay`. -/
def charsContain (needle : List Char) : List Char → Bool
  | [] => needle.isEmpty
  | c :: t => needle.isPrefixOf (c :: t) || charsContain needle t

/-- Python substring containment `needle in hay`. -/
def strContains (hay needle : String) : Bool :=
  charsContain needle.data hay.data

/-- Python `str.lower()` (the texts handled here are ASCII). -/
def pyLower (s : String) : String := ⟨s.data.map Char.toLower⟩

/-- Python `str.strip()`: drop whitespace from both ends. -/
def pyStrip (s : String) : String :=
  ⟨((s.data.dropWhile Char.isWhitespace).reverse.dropWhile
      Char.isWhitespace).reverse⟩

/-- Python `s[-n:]`: the trailing `n` characters (all of `s` when shorter). -/
def lastChars (n : ℕ) (s : String) : String :=
  ⟨s.data.drop (s.data.length - n)⟩

/-- The keyword boost of `search_embeddings` (lines 192-197): `-0.1` when the
lowercased chunk text contains any section keyword, else `0`. -/
def keywordBoost (text : String) : ℚ :=
  if sectionKeywords.any (fun kw => strContains (pyLower text) kw) then -1/10
  else 0

/-- The dedup key `(item["document_id"], item["chunk_id"])`. -/
def chunkKey (m : ChunkMeta) : Int × Int := (m.document_id, m.chunk_id)

/-- The `document_ids` filter test inside the search loop (line 189):
`if document_ids and item.get("document_id") not in document_ids: continue`.
A `None` or empty list is falsy and filters nothing. -/
def docFilterRejects (docIds : Option (List Int)) (m : ChunkMeta) : Bool :=
  match docIds with
  | none => false
  | some ds => !ds.isEmpty && !ds.contains m.document_id

/-- Python truthiness of the `document_ids` argument. -/
def docIdsTruthy (docIds : Option (List Int)) : Bool :=
  match docIds with
  | none => false
  | some ds => !ds.isEmpty

/-- Comparison of FAISS candidates by distance (first component). -/
def distLE (a b : ℚ × ℕ) : Prop := a.1 ≤ b.1

instance : DecidableRel distLE :=
  fun a b => inferInstanceAs (Decidable (a.1 ≤ b.1))

instance : IsTotal (ℚ × ℕ) distLE := ⟨fun a b => le_total a.1 b.1⟩

instance : IsTrans (ℚ × ℕ) distLE := ⟨fun _ _ _ h h' => le_trans h h'⟩

/-- Comparison of hits by their `score` field (the final `results.sort`). -/
def scoreLE (a b : Hit) : Prop := a.score ≤ b.score

instance : DecidableRel scoreLE :=
  fun a b => inferInstanceAs (Decidable (a.score ≤ b.score))

instance : IsTotal Hit scoreLE := ⟨fun a b => le_total a.score b.score⟩

instance : IsTrans Hit scoreLE := ⟨fun _ _ _ h h' => le_trans h h'⟩

/-- The FAISS call `index.search(query, n)` delivers `(distance, position)`
pairs for all stored vectors in ascending distance order; the caller takes
the first `search_k`.  (Tie order between equal distances is unspecified in
FAISS; none of the verified properties depends on it.) -/
def candidateList (q : List ℚ) (vectors : List (List ℚ)) : List (ℚ × ℕ) :=
  List.insertionSort distLE (vectors.enum.map (fun p => (sqDist q p.2, p.1)))

/-- The result-collection loop of `search_embeddings` (lines 182-208):
skip invalid positions, apply the document filter, add the boosted score,
deduplicate by `chunkKey`, and break once `k` results are collected (the
break test runs after the dedup step and is skipped by `continue`). -/
def collectHits (metadata : List ChunkMeta) (docIds : Option (List Int))
    (k : ℕ) : List (ℚ × ℕ) → List (Int × Int) → ℕ → List Hit
  | [], _, _ => []
  | (dist, idx) :: rest, seen, count =>
    match metadata.get? idx with
    | none => collectHits metadata docIds k rest seen count
    | some item =>
      if docFilterRejects docIds item then
        collectHits metadata docIds k rest seen count
      else
        let hit : Hit := ⟨item, dist + keywordBoost item.text⟩
        if chunkKey item ∈ seen then
          if k ≤ count then [] else collectHits metadata docIds k rest seen count
        else
          if k ≤ count + 1 then [hit]
          else hit :: collectHits metadata docIds k rest (chunkKey item :: seen) (count + 1)

/-- Function `search_embeddings` (`vector_store.py` lines 138-220). -/
def search_embeddings (q : List ℚ) (k : ℕ) (docIds : Option (List Int))
    (s : IndexState) : List Hit :=
  let t := load_index_and_metadata s
  if t.vectors.length = 0 then []
  else
    let searchK := min (if docIdsTruthy docIds then k * 5 else k * 2)
      t.vectors.length
    let cands := (candidateList q t.vectors).take searchK
    let results := collectHits t.metadata docIds k cands [] 0
    (List.insertionSort scoreLE results).take k

/-- Method `FAISSRetriever._filter_hits_by_document_ids` (`retriever.py` lines
38-41): a falsy filter set keeps everything, otherwise keep hits whose
`document_id` is a member. -/
def filter_hits_by_document_ids (allowed : Option (List Int))
    (hits : List Hit) : List Hit :=
  match allowed with
  | none => hits
  | some ds =>
    if ds.isEmpty then hits
    else hits.filter (fun h => ds.contains h.meta.document_id)

/-- Method `FAISSRetriever._get_relevant_documents` (`retriever.py` lines 57-81):
over-retrieve `k * 3` with the filter pushed into the search, keep top `k`. -/
def get_relevant_documents (q : List ℚ) (k : ℕ) (allowed : Option (List Int))
    (s : IndexState) : List Hit :=
  (search_embeddings q (k * 3) allowed s).take k

/-! ### Streaming pipeline (`llm/llm.py`, `rag/pipeline.py`) -/

/-- Python `text.split(sep)` restricted to the single-character separator
used by the code (`'\n'`); `"".split('\n') == [""]`. -/
def splitLinesChars : List Char → List (List Char)
  | [] => [[]]
  | c :: t =>
    match splitLinesChars t with
    | [] => [[]]
    | h :: r => if c = '\n' then [] :: h :: r else (c :: h) :: r

/-- Python `text.split('\n')` on strings. -/
def pySplitLines (s : String) : List String :=
  (splitLinesChars s.data).map String.mk

/-- One step of the line filter of `_remove_duplicate_sentences`
(`llm/llm.py` lines 112-134): blank lines and lines whose stripped form is
shorter than 20 characters are always kept; longer lines are kept only when
their lowercased stripped form has not been seen, which then records it. -/
def dedupLineStep (seen : List String) (line : String) :
    List String × Option String :=
  let stripped := pyStrip line
  if stripped = "" then (seen, some line)
  else if stripped.length < 20 then (seen, some line)
  else
    let normalized := pyLower stripped
    if normalized ∈ seen then (seen, none)
    else (normalized :: seen, some line)

/-- The fold of `_remove_duplicate_sentences` over the line list. -/
def dedupLines (seen : List String) : List String → List String
  | [] => []
  | line :: rest =>
    match dedupLineStep seen line with
    | (seen', some kept) => kept :: dedupLines seen' rest
    | (seen', none) => dedupLines seen' rest

/-- Function `_remove_duplicate_sentences` (`llm/llm.py` lines 101-138): split into
lines, keep short lines and first occurrences of long lines, rejoin. -/
def remove_duplicate_sentences (text : String) : String :=
  String.intercalate "\n" (dedupLines [] (pySplitLines text))

/-- The upstream `llm.astream` outcome for one request: the `content`
attributes of the chunks it delivered (absent attributes are `none`),
and `none` or the text of the exception it then raised. -/
structure UpstreamOutcome where
  chunks : List (Option String)
  raised : Option String

/-- The accumulation loop of `stream_llm_answer` (`llm/llm.py` lines 71-76):
chunks whose content is present and non-empty are appended to
`full_response`. -/
def accumulated_response (chunks : List (Option String)) : String :=
  ((chunks.filterMap id).filter (fun c => c ≠ "")).foldl (· ++ ·) ""

/-- Function `stream_llm_answer` (`llm/llm.py` lines 53-97): on an upstream
exception, yield one error-text token and stop; otherwise yield the
deduplicated accumulated response as a single token. -/
def stream_llm_answer (u : UpstreamOutcome) : List String :=
  match u.raised with
  | some e => ["\n\n[Error generating response: " ++ e ++ "]"]
  | none => [remove_duplicate_sentences (accumulated_response u.chunks)]

/-- The online repetition guard of `answer_query_stream` (`rag/pipeline.py`
lines 272-280), deciding whether an incoming token is dropped: the buffer so
far must exceed 50 characters, the stripped token must be non-empty, occur
in the trailing 100 characters, and be longer than 3 characters. -/
def token_suppressed (buf t : String) : Bool :=
  if buf.length > 50 then
    let recent := lastChars 100 buf
    if pyStrip t ≠ "" && strContains recent (pyStrip t) then
      if (pyStrip t).length > 3 then true else false
    else false
  else false

/-- The token loop of `answer_query_stream` (`rag/pipeline.py` lines
267-284): empty tokens are skipped, suppressed tokens neither advance the
buffer nor get emitted, all other tokens are appended and emitted.  Returns
the emitted token contents and the final buffer. -/
def processTokens : List String → String → List String × String
  | [], buf => ([], buf)
  | t :: ts, buf =>
    if t = "" then processTokens ts buf
    else if token_suppressed buf t then processTokens ts buf
    else
      let r := processTokens ts (buf ++ t)
      (t :: r.1, r.2)

/-- The events of one streamed query. -/
inductive StreamEvent where
  | token (content : String)
  | sources (hits : List Hit)
  | error (message : String)
deriving DecidableEq, Repr

/-- Whether an event is the token variant. -/
def StreamEvent.isTokenEvent : StreamEvent → Bool
  | .token _ => true
  | _ => false

/-- Whether an event is the error variant. -/
def StreamEvent.isErrorEvent : StreamEvent → Bool
  | .error _ => true
  | _ => false

/-- The event sequence produced by `answer_query_stream` (`rag/pipeline.py`
lines 267-302) for retrieved hits `srcs`: a `token` event per emitted token,
then the single final `sources` event. -/
def answer_query_stream (u : UpstreamOutcome) (srcs : List Hit) :
    List StreamEvent :=
  ((processTokens (stream_llm_answer u) "").1).map StreamEvent.token
    ++ [StreamEvent.sources srcs]

/-! ### Safety scorer (`utils/confidence.py`, `utils/hallucination.py`) -/

/-- Round-half-to-even on `ℚ`, the rounding of Python `round`. -/
def roundHalfEven (q : ℚ) : ℤ :=
  if q - ⌊q⌋ < 1/2 then ⌊q⌋
  else if 1/2 < q - ⌊q⌋ then ⌊q⌋ + 1
  else if Even ⌊q⌋ then ⌊q⌋ else ⌊q⌋ + 1

/-- Python `round(q, 2)`. -/
def pyRound2 (q : ℚ) : ℚ := (roundHalfEven (q * 100) : ℚ) / 100

/-- Python `round(q, 3)`. -/
def pyRound3 (q : ℚ) : ℚ := (roundHalfEven (q * 1000) : ℚ) / 1000

/-- Function `compute_confidence` (`utils/confidence.py`): `0.2` for empty sources or
answer, else `0.6` times the average of `1/(1+score)` plus `0.4` times
`min(len(answer)/300, 10)`, clamped at `0.95` and rounded to two decimals. -/
def compute_confidence (sources : List Hit) (answer : String) : ℚ :=
  if sources.isEmpty ∨ answer = "" then 1/5
  else
    let scores := sources.map (fun s => 1 / (1 + s.score))
    let avg_relevance := scores.sum / (scores.length : ℚ)
    let length_factor := min ((answer.length : ℚ) / 300) 10
    let confidence := 3/5 * avg_relevance + 2/5 * length_factor
    pyRound2 (min confidence (19/20))

/-- Modelled from the spec wording of C7 only (for comparison with
`compute_confidence`): the same combination without the final rounding. -/
def confidenceClaimFormula (sources : List Hit) (answer : String) : ℚ :=
  if sources.isEmpty ∨ answer = "" then 1/5
  else
    let scores := sources.map (fun s => 1 / (1 + s.score))
    let avg_relevance := scores.sum / (scores.length : ℚ)
    let length_factor := min ((answer.length : ℚ) / 300) 10
    min (3/5 * avg_relevance + 2/5 * length_factor) (19/20)

/-- Python word characters, the regex class of `\w`. -/
def isWordChar (c : Char) : Bool :=
  c.isAlpha || c.isDigit || c == '_'

/-- Splitting a character list at every non-word character (runs between
separators; empty runs are filtered by the caller). -/
def splitOnNonWord : List Char → List (List Char)
  | [] => [[]]
  | c :: t =>
    match splitOnNonWord t with
    | [] => [[]]
    | h :: r => if isWordChar c then (c :: h) :: r else [] :: h :: r

/-- Python `re.findall(r'\w+', s)`: the maximal runs of word characters. -/
def findWords (s : String) : List String :=
  ((splitOnNonWord s.data).filter (fun w => !w.isEmpty)).map String.mk

/-- The stop-word set of `detect_hallucination` (`utils/hallucination.py`
line 55). -/
def stopWords : List String :=
  ["the", "a", "an", "and", "or", "but", "in", "on", "at", "to", "for",
   "of", "with", "by", "from", "is", "are", "was", "were", "be", "been",
   "being", "have", "has", "had", "do", "does", "did", "will", "would",
   "should", "could", "may", "might", "must", "can", "this", "that",
   "these", "those", "i", "you", "he", "she", "it", "we", "they", "what",
   "which", "who", "when", "where", "why", "how"]

/-- The keyword-overlap ratio of `detect_hallucination` (lines 48-62):
`set(\w+ of answer.lower()) - stop_words` intersected with the union of the
source word sets, divided by the answer word-set size (`0` when empty). -/
def keywordOverlap (answer : String) (source_texts : List String) : ℚ :=
  let answer_words :=
    ((findWords (pyLower answer)).dedup).filter (fun w => w ∉ stopWords)
  let source_words :=
    ((source_texts.map (fun t => findWords (pyLower t))).flatten.dedup).filter
      (fun w => w ∉ stopWords)
  if answer_words.isEmpty then 0
  else
    ((answer_words.filter (fun w => w ∈ source_words)).length : ℚ) /
      answer_words.length

/-- Function `np.max` over a non-empty similarity list (`0` never arises: the code
reaches it only with at least one source text). -/
def listMax : List ℚ → ℚ
  | [] => 0
  | x :: xs => xs.foldl max x

/-- Function `np.mean` of a list. -/
def listMean (l : List ℚ) : ℚ := l.sum / l.length

/-- The result dict of `detect_hallucination`: the reported (rounded)
scores and the risk label from `details`. -/
structure HallucinationResult where
  hallucination_score : ℚ
  alignment_score : ℚ
  risk_level : String
deriving DecidableEq, Repr

/-- Function `_get_risk_level` (`utils/hallucination.py` lines 85-92). -/
def get_risk_level (hallucination_score : ℚ) : String :=
  if hallucination_score < 3/10 then "low"
  else if hallucination_score < 3/5 then "medium"
  else "high"

/-- The unrounded `hallucination_score` of `detect_hallucination` for the
non-degenerate path, given the answer–source cosine similarities as computed
by `cosine_similarity([embed_text(answer)], embed_texts(texts))[0]`.  The
embedding model is an external collaborator, so the similarity function
`sim` is an opaque parameter (cosine similarity of real vectors always lies
in `[-1, 1]`). -/
def rawHallucinationScore (sim : String → String → ℚ) (answer : String)
    (source_texts : List String) : ℚ :=
  let similarities := source_texts.map (sim answer)
  let max_similarity := listMax similarities
  let avg_similarity := listMean similarities
  let alignment := 3/5 * max_similarity + 3/10 * avg_similarity
    + 1/10 * keywordOverlap answer source_texts
  1 - alignment

/-- The source-text extraction of `detect_hallucination` (line 28):
`[s.get("text", "") for s in sources if s.get("text")]`. -/
def sourceTextsOf (sources : List Hit) : List String :=
  (sources.map (fun s => s.meta.text)).filter (fun t => t ≠ "")

/-- Function `detect_hallucination` (`utils/hallucination.py` lines 8-82).  The dict
literal answers for the two degenerate branches are transcribed; otherwise
the reported score is the rounded raw score while the risk label is computed
from the unrounded one. -/
def detect_hallucination (sim : String → String → ℚ) (answer : String)
    (sources : List Hit) : HallucinationResult :=
  if answer = "" ∨ sources.isEmpty then ⟨0, 0, "low"⟩
  else
    let source_texts := sourceTextsOf sources
    if source_texts.isEmpty then ⟨9/10, 1/10, "high"⟩
    else
      let h := rawHallucinationScore sim answer source_texts
      ⟨pyRound3 h, pyRound3 (1 - h), get_risk_level h⟩

/-! ### Invariant I1 and basic state lemmas -/

/-- Invariant I1 of the spec: the vector count equals the metadata count. -/
def I1 (s : IndexState) : Prop := s.vectors.length = s.metadata.length

instance : DecidablePred I1 :=
  fun s => inferInstanceAs (Decidable (s.vectors.length = s.metadata.length))

lemma I1_emptyIndex : I1 emptyIndex := rfl

lemma load_of_I1 {s : IndexState} (h : I1 s) :
    load_index_and_metadata s = s := by
  show (if s.vectors.length = s.metadata.length then s else emptyIndex) = s
  exact if_pos h

lemma load_of_not_I1 {s : IndexState} (h : ¬ I1 s) :
    load_index_and_metadata s = emptyIndex := by
  simp [load_index_and_metadata, I1] at h ⊢
  intro h'
  exact absurd h' h

lemma I1_load (s : IndexState) : I1 (load_index_and_metadata s) := by
  by_cases h : I1 s
  · rw [load_of_I1 h]; exact h
  · rw [load_of_not_I1 h]; exact I1_emptyIndex

lemma I1_rebuild (embed : String → List ℚ) (metadata : List ChunkMeta) :
    I1 (rebuild_index embed metadata) := by
  simp [I1, rebuild_index, save_index_and_metadata]

lemma I1_add {embs : List (List ℚ)} {metas : List ChunkMeta}
    {s s' : IndexState} (hlen : embs.length = metas.length)
    (hok : add_embeddings embs metas s = Except.ok s') : I1 s' := by
  unfold add_embeddings at hok
  split at hok
  · cases hok
    have ht := I1_load s
    simp [I1, save_index_and_metadata] at ht ⊢
    omega
  · cases hok

lemma I1_delete (embed : String → List ℚ) (d : Int) {s : IndexState}
    (h : I1 s) : I1 (delete_document embed d s) := by
  simp only [delete_document]
  split
  · exact h
  · exact I1_rebuild embed _

/-- The metadata left by `delete_document` on a consistent state is exactly
the non-matching part of the stored metadata. -/
lemma delete_metadata_eq (embed : String → List ℚ) (d : Int)
    {s : IndexState} (h : I1 s) :
    (delete_document embed d s).metadata =
      s.metadata.filter (fun m => m.document_id != d) := by
  simp only [delete_document, load_of_I1 h]
  split
  · next hlen =>
    exact ((List.filter_sublist _).eq_of_length hlen).symm
  · simp [rebuild_index, save_index_and_metadata]

/-- In the branch where something matched, `delete_document` rebuilds the
vectors by re-embedding every surviving metadata text. -/
lemma delete_vectors_eq (embed : String → List ℚ) (d : Int)
    {s : IndexState} (h : I1 s)
    (hmatch : s.metadata.countP (fun m => m.document_id == d) ≠ 0) :
    (delete_document embed d s).vectors =
      (s.metadata.filter (fun m => m.document_id != d)).map
        (fun m => embed m.text) := by
  simp only [delete_document, load_of_I1 h]
  split
  · next hlen =>
    exfalso
    apply hmatch
    have hfil : s.metadata.filter (fun m => m.document_id != d) =
        s.metadata := (List.filter_sublist _).eq_of_length hlen
    rw [List.countP_eq_zero]
    intro m hm
    rw [← hfil] at hm
    simpa using List.of_mem_filter hm
  · simp [rebuild_index, save_index_and_metadata]

/-- Claim C2: every reachable index state satisfies
`len(vectors) == len(metadata)`: loading always establishes the invariant
(and resets a violating snapshot to empty), and `add` with equal-length
inputs, `rebuild`, `save` and `delete` each preserve it. -/
theorem invariant_I1_reachable :
    ∀ s : IndexState,
      I1 (load_index_and_metadata s) ∧
      (¬ I1 s → load_index_and_metadata s = emptyIndex) ∧
      (∀ (embs : List (List ℚ)) (metas : List ChunkMeta) (s' : IndexState),
        embs.length = metas.length →
        add_embeddings embs metas s = Except.ok s' → I1 s') ∧
      (∀ (embed : String → List ℚ) (metadata : List ChunkMeta),
        I1 (rebuild_index embed metadata)) ∧
      (I1 s → I1 (save_index_and_metadata s)) ∧
      (∀ (embed : String → List ℚ) (d : Int),
        I1 s → I1 (delete_document embed d s)) := by
  intro s
  exact ⟨I1_load s, load_of_not_I1, fun _ _ _ hlen hok => I1_add hlen hok,
    I1_rebuild, fun h => h, fun embed d h => I1_delete embed d h⟩

/-- Witness for C2 at concrete states: a corrupt snapshot loads to the
invariant-satisfying empty state, and deletion preserves the invariant. -/
theorem invariant_I1_reachable_witness :
    I1 (load_index_and_metadata ⟨[], [⟨1, 0, "t", "x"⟩]⟩) ∧
    I1 (delete_document (fun _ => []) 1 emptyIndex) :=
  ⟨(invariant_I1_reachable ⟨[], [⟨1, 0, "t", "x"⟩]⟩).1,
   (invariant_I1_reachable emptyIndex).2.2.2.2.2 (fun _ => []) 1 rfl⟩

/-! ### Claim C9: deletion without matches is a no-op -/

lemma filter_ne_eq_self_of_countP_zero {l : List ChunkMeta} {d : Int}
    (h : l.countP (fun m => m.document_id == d) = 0) :
    l.filter (fun m => m.document_id != d) = l := by
  rw [List.filter_eq_self]
  intro m hm
  rw [List.countP_eq_zero] at h
  simpa using h m hm

lemma delete_noop_of_countP_zero (embed : String → List ℚ) (d : Int)
    {s : IndexState} (hI : I1 s)
    (h : s.metadata.countP (fun m => m.document_id == d) = 0) :
    delete_document embed d s = s := by
  simp only [delete_document, load_of_I1 hI]
  rw [filter_ne_eq_self_of_countP_zero h]
  simp

lemma delete_delete (embed : String → List ℚ) (d : Int) (s : IndexState) :
    delete_document embed d (delete_document embed d s) =
      delete_document embed d s := by
  by_cases hI : I1 s
  · have hmeta := delete_metadata_eq embed d hI
    have hI' := I1_delete embed d hI
    apply delete_noop_of_countP_zero embed d hI'
    rw [hmeta, List.countP_eq_zero]
    intro m hm
    have := List.of_mem_filter hm
    simpa using this
  · have hs : delete_document embed d s = s := by
      simp only [delete_document, load_of_not_I1 hI]
      simp [emptyIndex]
    rw [hs, hs]

/-- Claim C9: deleting a `document_id` that matches zero stored records is a
no-op — no rebuild, no save, the persisted snapshot is returned unchanged —
and deletion is idempotent. -/
theorem delete_document_noop_idempotent :
    ∀ (embed : String → List ℚ) (d : Int) (s : IndexState),
      (I1 s → s.metadata.countP (fun m => m.document_id == d) = 0 →
        delete_document embed d s = s) ∧
      delete_document embed d (delete_document embed d s) =
        delete_document embed d s := by
  intro embed d s
  exact ⟨fun hI h => delete_noop_of_countP_zero embed d hI h,
    delete_delete embed d s⟩

/-- Witness for C9: deleting document `1` from a consistent snapshot that
only holds document `2` returns the snapshot unchanged. -/
theorem delete_document_noop_witness :
    delete_document (fun _ => []) 1 ⟨[[0]], [⟨2, 0, "t", "x"⟩]⟩ =
      ⟨[[0]], [⟨2, 0, "t", "x"⟩]⟩ :=
  (delete_document_noop_idempotent (fun _ => []) 1
    ⟨[[0]], [⟨2, 0, "t", "x"⟩]⟩).1 rfl rfl

/-! ### Claim C4: the online repetition guard -/

lemma ne_empty_of_three_lt {s : String} (h : 3 < s.length) : s ≠ "" := by
  intro he
  subst he
  simp at h

/-- Claim C4 (amended): a token is suppressed exactly when the buffer so far
exceeds 50 characters, the stripped token is longer than 3 characters, and
the stripped token occurs in the trailing 100-character window; tokens
arriving while the buffer is at or below 50 characters are never suppressed,
and a suppressed token neither advances the buffer nor gets emitted. -/
theorem token_suppression_characterization :
    ∀ buf t : String,
      (token_suppressed buf t = true ↔
        (50 < buf.length ∧ 3 < (pyStrip t).length ∧
          strContains (lastChars 100 buf) (pyStrip t) = true)) ∧
      (buf.length ≤ 50 → token_suppressed buf t = false) ∧
      (∀ ts : List String, token_suppressed buf t = true →
        processTokens (t :: ts) buf = processTokens ts buf) := by
  intro buf t
  refine ⟨?_, ?_, ?_⟩
  · simp only [token_suppressed]
    split
    · next h50 =>
      split
      · next hcond =>
        rw [Bool.and_eq_true] at hcond
        obtain ⟨hne, hsub⟩ := hcond
        split
        · next h3 => simp [h50, h3, hsub]
        · next h3 =>
          simp only [Bool.false_eq_true, false_iff]
          rintro ⟨-, h3', -⟩
          exact h3 h3'
      · next hcond =>
        simp only [Bool.false_eq_true, false_iff]
        rintro ⟨-, h3', hsub⟩
        apply hcond
        rw [Bool.and_eq_true]
        exact ⟨by simpa using ne_empty_of_three_lt h3', hsub⟩
    · next h50 =>
      simp only [Bool.false_eq_true, false_iff]
      rintro ⟨h50', -, -⟩
      exact h50 h50'
  · intro hle
    have : ¬ (50 < buf.length) := by omega
    simp [token_suppressed, this]
  · intro ts hsup
    by_cases ht : t = "" <;> simp [processTokens, ht, hsup]

/-- Counterexample to C4 as stated: with a 60-character buffer — at or below
the claimed 200-character threshold — a repeated token is already
suppressed. -/
theorem token_suppression_counterexample :
    ("aaaaaaaaaaaaaaaaaaaaaaaaaaaaaaaaaaaaaaaaaaaaaaaaaaaaaaaabcde".length ≤ 200) ∧
    token_suppressed "aaaaaaaaaaaaaaaaaaaaaaaaaaaaaaaaaaaaaaaaaaaaaaaaaaaaaaaabcde" " abcde " = true := by
  decide

/-- Witness for C4: with an empty buffer no token is suppressed. -/
theorem token_suppression_witness :
    token_suppressed "" "hello" = false :=
  (token_suppression_characterization "" "hello").2.1 (by decide)

/-! ### Claims C3 and C10: stream event shape -/

lemma append_ne_empty_right (a b : String) (h : b ≠ "") : a ++ b ≠ "" := by
  obtain ⟨ad⟩ := a
  obtain ⟨bd⟩ := b
  intro he
  apply h
  have hd : ad ++ bd = [] := congrArg String.data he
  have hb : bd = [] := (List.append_eq_nil.mp hd).2
  simp [hb]

lemma token_suppressed_empty_buf (t : String) :
    token_suppressed "" t = false := by
  have h : ¬ (50 < ("" : String).length) := by decide
  simp [token_suppressed, h]

lemma processTokens_single_fst (t : String) (ht : t ≠ "") :
    (processTokens [t] "").1 = [t] := by
  simp [processTokens, ht, token_suppressed_empty_buf]

/-- Claim C3 (amended): the events of one streamed query are zero or more
`token` events followed by exactly one terminal event, and that terminal
event is always the `sources` event carrying the hit list — never an
`error` event; when the upstream generation call raises, the error text is
delivered as the one `token` event before the terminal `sources` event. -/
theorem stream_terminal_event_shape :
    ∀ (u : UpstreamOutcome) (srcs : List Hit),
      (∃ toks : List String, answer_query_stream u srcs =
        toks.map StreamEvent.token ++ [StreamEvent.sources srcs]) ∧
      (∀ e ∈ answer_query_stream u srcs, e.isErrorEvent = false) ∧
      (∀ msg : String, u.raised = some msg →
        answer_query_stream u srcs =
          [StreamEvent.token ("\n\n[Error generating response: " ++ msg ++ "]"),
           StreamEvent.sources srcs]) := by
  intro u srcs
  refine ⟨⟨(processTokens (stream_llm_answer u) "").1, rfl⟩, ?_, ?_⟩
  · intro e he
    simp only [answer_query_stream, List.mem_append, List.mem_map,
      List.mem_singleton] at he
    rcases he with ⟨x, -, rfl⟩ | rfl <;> rfl
  · intro msg hmsg
    obtain ⟨chunks, raised⟩ := u
    simp only at hmsg
    subst hmsg
    simp only [answer_query_stream, stream_llm_answer]
    rw [processTokens_single_fst]
    · rfl
    · exact append_ne_empty_right _ "]" (by decide)

/-- Witness for C3: a concrete failing upstream call yields the error-text
token followed by the terminal sources event. -/
theorem stream_terminal_event_witness :
    answer_query_stream ⟨[], some "boom"⟩ [] =
      [StreamEvent.token ("\n\n[Error generating response: " ++ "boom" ++ "]"),
       StreamEvent.sources []] :=
  (stream_terminal_event_shape ⟨[], some "boom"⟩ []).2.2 "boom" rfl

/-- Counterexample to C3 as stated: when the upstream generation call
raises, the terminal event is the `sources` event, not an `error` event —
no error event appears at all. -/
theorem stream_terminal_counterexample :
    (answer_query_stream ⟨[], some "boom"⟩ []).getLast? =
      some (StreamEvent.sources []) ∧
    (answer_query_stream ⟨[], some "boom"⟩ []).filter
      StreamEvent.isErrorEvent = [] := by
  decide

/-- Claim C10 (amended): on a successful upstream stream the whole
deduplicated response is delivered as at most one `token` event — exactly
one when it is non-empty, none when it is empty — so no incremental token
reaches the consumer before generation completes. -/
theorem single_token_on_success :
    ∀ (chunks : List (Option String)) (srcs : List Hit),
      answer_query_stream ⟨chunks, none⟩ srcs =
        (if remove_duplicate_sentences (accumulated_response chunks) = ""
         then []
         else [StreamEvent.token
            (remove_duplicate_sentences (accumulated_response chunks))]) ++
          [StreamEvent.sources srcs] := by
  intro chunks srcs
  simp only [answer_query_stream, stream_llm_answer]
  split
  · next hd => rw [hd]; simp [processTokens]
  · next hd => rw [processTokens_single_fst _ hd]; rfl

/-- Counterexample to C10 as stated: a successful upstream stream with no
content produces zero token events, not exactly one. -/
theorem single_token_counterexample :
    answer_query_stream ⟨[], none⟩ [] = [StreamEvent.sources []] ∧
    (answer_query_stream ⟨[], none⟩ []).countP StreamEvent.isTokenEvent = 0 := by
  decide

/-! ### Claim C7: confidence score -/

lemma roundHalfEven_nonneg {q : ℚ} (h : 0 ≤ q) : 0 ≤ roundHalfEven q := by
  have hf : (0 : ℤ) ≤ ⌊q⌋ := Int.floor_nonneg.mpr h
  unfold roundHalfEven
  split
  · exact hf
  · split
    · omega
    · split <;> omega

lemma floor_add_one_le {q : ℚ} {n : ℤ} (hq : q ≤ (n : ℚ))
    (hh : 1/2 ≤ q - (⌊q⌋ : ℚ)) : ⌊q⌋ + 1 ≤ n := by
  have h1 : (⌊q⌋ : ℚ) + 1/2 ≤ (n : ℚ) := by linarith
  have h2 : (⌊q⌋ : ℚ) < (n : ℚ) := by linarith
  have h3 : ⌊q⌋ < n := by exact_mod_cast h2
  omega

lemma roundHalfEven_le {q : ℚ} {n : ℤ} (h : q ≤ (n : ℚ)) :
    roundHalfEven q ≤ n := by
  have hf : ⌊q⌋ ≤ n := by
    have := Int.floor_le_floor h
    simpa using this
  unfold roundHalfEven
  split
  · exact hf
  · next h1 =>
    split
    · next h2 => exact floor_add_one_le h (le_of_lt h2)
    · next h2 =>
      split
      · exact hf
      · exact floor_add_one_le h (le_of_not_lt h1)

lemma pyRound2_nonneg {q : ℚ} (h : 0 ≤ q) : 0 ≤ pyRound2 q := by
  unfold pyRound2
  have h1 : (0 : ℤ) ≤ roundHalfEven (q * 100) :=
    roundHalfEven_nonneg (by linarith)
  have h2 : (0 : ℚ) ≤ (roundHalfEven (q * 100) : ℚ) := by exact_mod_cast h1
  linarith

lemma pyRound2_le_ninetyfive {q : ℚ} (h : q ≤ 19/20) :
    pyRound2 q ≤ 19/20 := by
  unfold pyRound2
  have h1 : roundHalfEven (q * 100) ≤ (95 : ℤ) := by
    apply roundHalfEven_le
    push_cast
    linarith
  have h2 : (roundHalfEven (q * 100) : ℚ) ≤ 95 := by exact_mod_cast h1
  linarith

lemma roundHalfEven_intCast (n : ℤ) : roundHalfEven (n : ℚ) = n := by
  unfold roundHalfEven
  rw [Int.floor_intCast]
  have : (n : ℚ) - (n : ℚ) = 0 := by ring
  rw [this]
  norm_num

lemma compute_confidence_eq (sources : List Hit) (answer : String) :
    compute_confidence sources answer =
      pyRound2 (confidenceClaimFormula sources answer) := by
  simp only [compute_confidence, confidenceClaimFormula]
  split
  · have h20 : ((1 : ℚ)/5) * 100 = ((20 : ℤ) : ℚ) := by norm_num
    unfold pyRound2
    rw [h20, roundHalfEven_intCast]
    norm_num
  · rfl

lemma compute_confidence_range (sources : List Hit) (answer : String)
    (hs : ∀ h ∈ sources, -(1/10) ≤ h.score) :
    0 ≤ compute_confidence sources answer ∧
      compute_confidence sources answer ≤ 19/20 := by
  simp only [compute_confidence]
  split
  · constructor <;> norm_num
  · have hsum : 0 ≤ (sources.map (fun s => 1 / (1 + s.score))).sum := by
      apply List.sum_nonneg
      intro x hx
      rcases List.mem_map.mp hx with ⟨h, hh, rfl⟩
      have := hs h hh
      have hpos : (0 : ℚ) < 1 + h.score := by linarith
      positivity
    have havg : 0 ≤ (sources.map (fun s => 1 / (1 + s.score))).sum /
        ((sources.map (fun s => 1 / (1 + s.score))).length : ℚ) := by
      apply div_nonneg hsum
      exact_mod_cast Nat.zero_le _
    have hlf : (0 : ℚ) ≤ min ((answer.length : ℚ) / 300) 10 := by
      apply le_min
      · positivity
      · norm_num
    constructor
    · apply pyRound2_nonneg
      apply le_min _ (by norm_num)
      nlinarith
    · exact pyRound2_le_ninetyfive (min_le_right _ _)

/-- Claim C7 (amended): `compute_confidence` returns `0.2` for empty
sources or answer; otherwise it returns the spec combination
`0.6 * avg(1/(1+score)) + 0.4 * min(len/300, 10)` clamped at `0.95` and
then rounded to two decimals; whenever every source score is at least
`-0.1` (as every score produced by `search_embeddings` is), the returned
value lies in `[0, 0.95]`. -/
theorem compute_confidence_spec :
    ∀ (sources : List Hit) (answer : String),
      compute_confidence sources answer =
        pyRound2 (confidenceClaimFormula sources answer) ∧
      ((∀ h ∈ sources, -(1/10) ≤ h.score) →
        0 ≤ compute_confidence sources answer ∧
        compute_confidence sources answer ≤ 19/20) := by
  intro sources answer
  exact ⟨compute_confidence_eq sources answer,
    compute_confidence_range sources answer⟩

/-- Witness for C7 at the degenerate input: the empty call stays within
`[0, 0.95]` (it returns the fixed default). -/
theorem compute_confidence_witness :
    0 ≤ compute_confidence [] "" ∧ compute_confidence [] "" ≤ 19/20 :=
  (compute_confidence_spec [] "").2 (by simp)

/-- Counterexample to C7 as stated: for one source at distance `0` and a
one-character answer, the claimed unrounded combination is `451/750 ≈
0.6013`, but the code returns `round(0.6013.., 2) = 0.6` — the returned
value does not equal the claimed expression. -/
theorem compute_confidence_counterexample :
    compute_confidence [⟨⟨1, 0, "t", "x"⟩, 0⟩] "a" = 3/5 ∧
    confidenceClaimFormula [⟨⟨1, 0, "t", "x"⟩, 0⟩] "a" = 451/750 ∧
    (3/5 : ℚ) ≠ 451/750 := by
  have hlen : ("a" : String).length = 1 := by decide
  have hne : ("a" : String) ≠ "" := by decide
  have hform : confidenceClaimFormula [⟨⟨1, 0, "t", "x"⟩, 0⟩] "a" =
      451/750 := by
    simp only [confidenceClaimFormula, hlen]
    norm_num [min_def, hne]
  refine ⟨?_, hform, by norm_num⟩
  rw [compute_confidence_eq, hform]
  have h1 : ((451 : ℚ)/750) * 100 = 902/15 := by norm_num
  have hfl : ⌊(902/15 : ℚ)⌋ = 60 := by
    rw [Int.floor_eq_iff]
    norm_num
  unfold pyRound2 roundHalfEven
  rw [h1, hfl]
  norm_num

/-! ### Search membership lemmas, claims C5 and C6 -/

lemma mem_meta_of_mem_collectHits {metadata : List ChunkMeta}
    {docIds : Option (List Int)} {k : ℕ} :
    ∀ {cands : List (ℚ × ℕ)} {seen : List (Int × Int)} {count : ℕ} {h : Hit},
      h ∈ collectHits metadata docIds k cands seen count →
      h.meta ∈ metadata := by
  intro cands
  induction cands with
  | nil =>
    intro seen count h hh
    simp [collectHits] at hh
  | cons c rest ih =>
    obtain ⟨dist, idx⟩ := c
    intro seen count h hh
    simp only [collectHits] at hh
    split at hh
    · exact ih hh
    · next item heq =>
      split at hh
      · exact ih hh
      · split at hh
        · split at hh
          · simp at hh
          · exact ih hh
        · split at hh
          · rw [List.mem_singleton] at hh
            subst hh
            exact List.get?_mem heq
          · rcases List.mem_cons.mp hh with rfl | hh'
            · exact List.get?_mem heq
            · exact ih hh'

lemma search_hits_sub_metadata {q : List ℚ} {k : ℕ}
    {docIds : Option (List Int)} {s : IndexState} {h : Hit}
    (hh : h ∈ search_embeddings q k docIds s) :
    h.meta ∈ (load_index_and_metadata s).metadata := by
  simp only [search_embeddings] at hh
  split at hh
  · simp at hh
  · have h1 := List.mem_of_mem_take hh
    have h2 := (List.perm_insertionSort scoreLE _).mem_iff.mp h1
    exact mem_meta_of_mem_collectHits h2

lemma delete_search_no_match (embed : String → List ℚ) (d : Int)
    {s : IndexState} (hI : I1 s) {q : List ℚ} {k : ℕ}
    {ids : Option (List Int)} {h : Hit}
    (hh : h ∈ search_embeddings q k ids (delete_document embed d s)) :
    h.meta.document_id ≠ d := by
  have hI' := I1_delete embed d hI
  have hmem := search_hits_sub_metadata hh
  rw [load_of_I1 hI', delete_metadata_eq embed d hI] at hmem
  have := List.of_mem_filter hmem
  simpa using this

/-- Claim C5: `delete_by_document(d)` leaves exactly the non-matching
records — the remaining count is the old count minus the number of matching
records, no remaining record (hence no later search hit) carries `d`, and
when something matched, the surviving metadata is re-embedded into a
brand-new persisted index. -/
theorem delete_document_removes_exactly :
    ∀ (embed : String → List ℚ) (d : Int) (s : IndexState), I1 s →
      ((delete_document embed d s).metadata =
        s.metadata.filter (fun m => m.document_id != d)) ∧
      (∀ m ∈ (delete_document embed d s).metadata, m.document_id ≠ d) ∧
      ((delete_document embed d s).metadata.length =
        s.metadata.length -
          s.metadata.countP (fun m => m.document_id == d)) ∧
      (s.metadata.countP (fun m => m.document_id == d) ≠ 0 →
        (delete_document embed d s).vectors =
          (s.metadata.filter (fun m => m.document_id != d)).map
            (fun m => embed m.text)) ∧
      (∀ (q : List ℚ) (k : ℕ) (ids : Option (List Int)) (h : Hit),
        h ∈ search_embeddings q k ids (delete_document embed d s) →
        h.meta.document_id ≠ d) := by
  intro embed d s hI
  refine ⟨delete_metadata_eq embed d hI, ?_, ?_, ?_, ?_⟩
  · intro m hm
    rw [delete_metadata_eq embed d hI] at hm
    simpa using List.of_mem_filter hm
  · rw [delete_metadata_eq embed d hI]
    have h1 : (s.metadata.filter (fun m => m.document_id != d)).length =
        s.metadata.countP (fun m => m.document_id != d) :=
      Eq.symm (List.countP_eq_length_filter (fun m => m.document_id != d)
        s.metadata)
    have h2 := List.length_eq_countP_add_countP
      (fun m : ChunkMeta => m.document_id == d) s.metadata
    have h3 : s.metadata.countP (fun m => m.document_id != d) =
        s.metadata.countP
          (fun a => decide ¬((a.document_id == d) = true)) := by
      apply List.countP_congr
      intro m _
      simp [bne, decide_not]
    omega
  · exact delete_vectors_eq embed d hI
  · intro q k ids h hh
    exact delete_search_no_match embed d hI hh

/-- Witness for C5: deleting document `1` from a two-record snapshot leaves
exactly the record of document `2`. -/
theorem delete_document_removes_witness :
    (delete_document (fun _ => [5]) 1
      ⟨[[0], [1]], [⟨1, 0, "t", "x"⟩, ⟨2, 0, "t", "y"⟩]⟩).metadata =
      [⟨2, 0, "t", "y"⟩] := by
  have h := (delete_document_removes_exactly (fun _ => [5]) 1
    ⟨[[0], [1]], [⟨1, 0, "t", "x"⟩, ⟨2, 0, "t", "y"⟩]⟩ rfl).1
  rw [h]
  decide

lemma docFilterRejects_false_mem {ds : List Int} {m : ChunkMeta}
    (hne : ds ≠ []) (h : docFilterRejects (some ds) m = false) :
    m.document_id ∈ ds := by
  simp only [docFilterRejects, Bool.and_eq_false_iff] at h
  rcases h with h | h
  · simp [List.isEmpty_iff] at h
    exact absurd h hne
  · simpa using h

lemma mem_ds_of_mem_collectHits {metadata : List ChunkMeta} {ds : List Int}
    {k : ℕ} (hne : ds ≠ []) :
    ∀ {cands : List (ℚ × ℕ)} {seen : List (Int × Int)} {count : ℕ} {h : Hit},
      h ∈ collectHits metadata (some ds) k cands seen count →
      h.meta.document_id ∈ ds := by
  intro cands
  induction cands with
  | nil =>
    intro seen count h hh
    simp [collectHits] at hh
  | cons c rest ih =>
    obtain ⟨dist, idx⟩ := c
    intro seen count h hh
    simp only [collectHits] at hh
    split at hh
    · exact ih hh
    · next item heq =>
      split at hh
      · exact ih hh
      · next hrej =>
        have hdoc : item.document_id ∈ ds :=
          docFilterRejects_false_mem hne (by simpa using hrej)
        split at hh
        · split at hh
          · simp at hh
          · exact ih hh
        · split at hh
          · rw [List.mem_singleton] at hh
            subst hh
            exact hdoc
          · rcases List.mem_cons.mp hh with rfl | hh'
            · exact hdoc
            · exact ih hh'

lemma collectHits_empty_of_no_match {metadata : List ChunkMeta}
    {ds : List Int} {k : ℕ} (hne : ds ≠ [])
    (hno : ∀ m ∈ metadata, m.document_id ∉ ds) :
    ∀ (cands : List (ℚ × ℕ)) (seen : List (Int × Int)) (count : ℕ),
      collectHits metadata (some ds) k cands seen count = [] := by
  intro cands
  induction cands with
  | nil => intro seen count; simp [collectHits]
  | cons c rest ih =>
    obtain ⟨dist, idx⟩ := c
    intro seen count
    simp only [collectHits]
    split
    · exact ih seen count
    · next item heq =>
      have hitem : item ∈ metadata := List.get?_mem heq
      have hrej : docFilterRejects (some ds) item = true := by
        simp only [docFilterRejects, Bool.and_eq_true]
        constructor
        · simpa [List.isEmpty_iff] using hne
        · simpa using hno item hitem
      rw [if_pos hrej]
      exact ih seen count

lemma search_doc_mem {q : List ℚ} {k : ℕ} {ds : List Int} {s : IndexState}
    (hne : ds ≠ []) {h : Hit}
    (hh : h ∈ search_embeddings q k (some ds) s) :
    h.meta.document_id ∈ ds := by
  simp only [search_embeddings] at hh
  split at hh
  · simp at hh
  · have h1 := List.mem_of_mem_take hh
    have h2 := (List.perm_insertionSort scoreLE _).mem_iff.mp h1
    exact mem_ds_of_mem_collectHits hne h2

lemma search_empty_of_no_match {q : List ℚ} {k : ℕ} {ds : List Int}
    {s : IndexState} (hne : ds ≠ [])
    (hno : ∀ m ∈ (load_index_and_metadata s).metadata, m.document_id ∉ ds) :
    search_embeddings q k (some ds) s = [] := by
  simp only [search_embeddings]
  split
  · rfl
  · rw [collectHits_empty_of_no_match hne hno]
    simp [List.insertionSort]

/-- Claim C6: with a non-empty `allowed_document_ids` filter every returned
hit carries a member document id — at the retriever filter, at the search
layer, and for the documents the retriever returns — and when no stored
record matches, retrieval returns the empty list rather than an error. -/
theorem allowed_document_ids_respected :
    ∀ (ds : List Int) (hits : List Hit) (q : List ℚ) (k : ℕ)
      (s : IndexState), ds ≠ [] →
      (∀ h ∈ filter_hits_by_document_ids (some ds) hits,
        h.meta.document_id ∈ ds) ∧
      (∀ h ∈ search_embeddings q k (some ds) s, h.meta.document_id ∈ ds) ∧
      (∀ h ∈ get_relevant_documents q k (some ds) s,
        h.meta.document_id ∈ ds) ∧
      ((∀ m ∈ (load_index_and_metadata s).metadata, m.document_id ∉ ds) →
        search_embeddings q k (some ds) s = [] ∧
        get_relevant_documents q k (some ds) s = []) := by
  intro ds hits q k s hne
  refine ⟨?_, fun h hh => search_doc_mem hne hh, ?_, ?_⟩
  · intro h hh
    simp only [filter_hits_by_document_ids] at hh
    split at hh
    · next hemp =>
      exact absurd (List.isEmpty_iff.mp hemp) hne
    · simpa using List.of_mem_filter hh
  · intro h hh
    exact search_doc_mem hne (List.mem_of_mem_take hh)
  · intro hno
    have h1 : search_embeddings q k (some ds) s = [] :=
      search_empty_of_no_match hne hno
    have h2 : search_embeddings q (k * 3) (some ds) s = [] :=
      search_empty_of_no_match hne hno
    exact ⟨h1, by simp [get_relevant_documents, h2]⟩

/-- Witness for C6: with filter `{1, 2}` over an index that only stores
document `3`, retrieval returns the empty list. -/
theorem allowed_document_ids_witness :
    search_embeddings [0] 5 (some [1, 2])
      ⟨[[0]], [⟨3, 0, "t", "x"⟩]⟩ = [] ∧
    get_relevant_documents [0] 5 (some [1, 2])
      ⟨[[0]], [⟨3, 0, "t", "x"⟩]⟩ = [] :=
  (allowed_document_ids_respected [1, 2] [] [0] 5
    ⟨[[0]], [⟨3, 0, "t", "x"⟩]⟩ (by decide)).2.2.2 (by decide)

/-! ### Claim C8: hallucination score range and risk cutoffs -/

lemma foldl_max_le {b : ℚ} :
    ∀ (xs : List ℚ) (x : ℚ), x ≤ b → (∀ y ∈ xs, y ≤ b) →
      xs.foldl max x ≤ b := by
  intro xs
  induction xs with
  | nil => intro x hx _; simpa using hx
  | cons y ys ih =>
    intro x hx hall
    simp only [List.foldl_cons]
    apply ih
    · exact max_le hx (hall y (by simp))
    · intro z hz
      exact hall z (by simp [hz])

lemma le_foldl_max {a : ℚ} :
    ∀ (xs : List ℚ) (x : ℚ), a ≤ x → a ≤ xs.foldl max x := by
  intro xs
  induction xs with
  | nil => intro x hx; simpa using hx
  | cons y ys ih =>
    intro x hx
    simp only [List.foldl_cons]
    exact ih (max x y) (le_trans hx (le_max_left x y))

lemma listMax_le {l : List ℚ} {b : ℚ} (hne : l ≠ [])
    (h : ∀ y ∈ l, y ≤ b) : listMax l ≤ b := by
  cases l with
  | nil => exact absurd rfl hne
  | cons x xs =>
    simp only [listMax]
    exact foldl_max_le xs x (h x (by simp)) (fun y hy => h y (by simp [hy]))

lemma le_listMax {l : List ℚ} {a : ℚ} (hne : l ≠ [])
    (h : ∀ y ∈ l, a ≤ y) : a ≤ listMax l := by
  cases l with
  | nil => exact absurd rfl hne
  | cons x xs =>
    simp only [listMax]
    exact le_foldl_max xs x (h x (by simp))

lemma listMean_le {l : List ℚ} {b : ℚ} (hne : l ≠ [])
    (h : ∀ y ∈ l, y ≤ b) : listMean l ≤ b := by
  unfold listMean
  have hpos : (0 : ℚ) < (l.length : ℚ) := by
    exact_mod_cast List.length_pos.mpr hne
  rw [div_le_iff₀ hpos]
  have hs := List.sum_le_card_nsmul l b h
  rw [nsmul_eq_mul] at hs
  linarith

lemma le_listMean {l : List ℚ} {a : ℚ} (hne : l ≠ [])
    (h : ∀ y ∈ l, a ≤ y) : a ≤ listMean l := by
  unfold listMean
  have hpos : (0 : ℚ) < (l.length : ℚ) := by
    exact_mod_cast List.length_pos.mpr hne
  rw [le_div_iff₀ hpos]
  have hs := List.card_nsmul_le_sum l a h
  rw [nsmul_eq_mul] at hs
  linarith

lemma keywordOverlap_nonneg (answer : String) (texts : List String) :
    0 ≤ keywordOverlap answer texts := by
  simp only [keywordOverlap]
  split
  · exact le_refl 0
  · positivity

lemma keywordOverlap_le_one (answer : String) (texts : List String) :
    keywordOverlap answer texts ≤ 1 := by
  simp only [keywordOverlap]
  split
  · norm_num
  · next hne =>
    rw [div_le_one]
    · exact_mod_cast List.length_filter_le _ _
    · have h1 : ((findWords (pyLower answer)).dedup).filter
          (fun w => w ∉ stopWords) ≠ [] := by
        intro h
        rw [h] at hne
        simp at hne
      exact_mod_cast List.length_pos.mpr h1

lemma rawHallucinationScore_bounds (sim : String → String → ℚ)
    (answer : String) (texts : List String) (lo : ℚ)
    (hne : texts ≠ [])
    (hb : ∀ t ∈ texts, lo ≤ sim answer t ∧ sim answer t ≤ 1) :
    0 ≤ rawHallucinationScore sim answer texts ∧
      rawHallucinationScore sim answer texts ≤ 1 - 9/10 * lo := by
  have hsne : texts.map (sim answer) ≠ [] := by
    simpa using hne
  have hmem : ∀ y ∈ texts.map (sim answer), lo ≤ y ∧ y ≤ 1 := by
    intro y hy
    rcases List.mem_map.mp hy with ⟨t, ht, rfl⟩
    exact hb t ht
  have hmax1 : listMax (texts.map (sim answer)) ≤ 1 :=
    listMax_le hsne (fun y hy => (hmem y hy).2)
  have hmax0 : lo ≤ listMax (texts.map (sim answer)) :=
    le_listMax hsne (fun y hy => (hmem y hy).1)
  have hmean1 : listMean (texts.map (sim answer)) ≤ 1 :=
    listMean_le hsne (fun y hy => (hmem y hy).2)
  have hmean0 : lo ≤ listMean (texts.map (sim answer)) :=
    le_listMean hsne (fun y hy => (hmem y hy).1)
  have hkw0 := keywordOverlap_nonneg answer texts
  have hkw1 := keywordOverlap_le_one answer texts
  unfold rawHallucinationScore
  constructor <;> linarith

lemma pyRound3_nonneg {q : ℚ} (h : 0 ≤ q) : 0 ≤ pyRound3 q := by
  unfold pyRound3
  have h1 : (0 : ℤ) ≤ roundHalfEven (q * 1000) :=
    roundHalfEven_nonneg (by linarith)
  have h2 : (0 : ℚ) ≤ (roundHalfEven (q * 1000) : ℚ) := by exact_mod_cast h1
  linarith

lemma pyRound3_le_one {q : ℚ} (h : q ≤ 1) : pyRound3 q ≤ 1 := by
  unfold pyRound3
  have h1 : roundHalfEven (q * 1000) ≤ (1000 : ℤ) := by
    apply roundHalfEven_le
    push_cast
    linarith
  have h2 : (roundHalfEven (q * 1000) : ℚ) ≤ 1000 := by exact_mod_cast h1
  linarith

lemma risk_level_iff (x : ℚ) :
    (get_risk_level x = "low" ↔ x < 3/10) ∧
    (get_risk_level x = "medium" ↔ (3/10 ≤ x ∧ x < 3/5)) ∧
    (get_risk_level x = "high" ↔ 3/5 ≤ x) := by
  unfold get_risk_level
  by_cases h1 : x < 3/10
  · rw [if_pos h1]
    refine ⟨⟨fun _ => h1, fun _ => rfl⟩, ?_, ?_⟩
    · exact ⟨fun h => absurd h (by decide),
        fun h => absurd h1 (by push_neg; linarith [h.1])⟩
    · exact ⟨fun h => absurd h (by decide),
        fun h => absurd h1 (by push_neg; linarith)⟩
  · rw [if_neg h1]
    push_neg at h1
    by_cases h2 : x < 3/5
    · rw [if_pos h2]
      refine ⟨?_, ⟨fun _ => ⟨h1, h2⟩, fun _ => rfl⟩, ?_⟩
      · exact ⟨fun h => absurd h (by decide),
          fun h => absurd h1 (by push_neg; linarith)⟩
      · exact ⟨fun h => absurd h (by decide),
          fun h => absurd h2 (by push_neg; linarith)⟩
    · rw [if_neg h2]
      push_neg at h2
      refine ⟨?_, ?_, ⟨fun _ => h2, fun _ => rfl⟩⟩
      · exact ⟨fun h => absurd h (by decide),
          fun h => absurd h2 (by push_neg; linarith)⟩
      · exact ⟨fun h => absurd h (by decide),
          fun h => absurd h2 (by push_neg; linarith [h.2])⟩

/-- Claim C8 (amended): for non-degenerate input (non-empty answer, at
least one source with non-empty text), the reported score is the rounded
raw score `1 − (0.6·max + 0.3·avg + 0.1·overlap)`; the raw score lies in
`[0, 1]` whenever every answer–source similarity is non-negative, and in
`[0, 1.9]` for similarities in the cosine range `[-1, 1]`; the risk label
is computed from the unrounded score with exact cutoffs at `0.3` and
`0.6`. -/
theorem hallucination_range_and_cutoffs :
    ∀ (sim : String → String → ℚ) (answer : String) (sources : List Hit),
      answer ≠ "" → sources ≠ [] → sourceTextsOf sources ≠ [] →
      ((detect_hallucination sim answer sources).hallucination_score =
          pyRound3 (rawHallucinationScore sim answer
            (sourceTextsOf sources)) ∧
        (detect_hallucination sim answer sources).risk_level =
          get_risk_level (rawHallucinationScore sim answer
            (sourceTextsOf sources))) ∧
      ((∀ t ∈ sourceTextsOf sources, 0 ≤ sim answer t ∧ sim answer t ≤ 1) →
        0 ≤ rawHallucinationScore sim answer (sourceTextsOf sources) ∧
        rawHallucinationScore sim answer (sourceTextsOf sources) ≤ 1 ∧
        0 ≤ (detect_hallucination sim answer sources).hallucination_score ∧
        (detect_hallucination sim answer sources).hallucination_score ≤ 1) ∧
      ((∀ t ∈ sourceTextsOf sources,
          -1 ≤ sim answer t ∧ sim answer t ≤ 1) →
        0 ≤ rawHallucinationScore sim answer (sourceTextsOf sources) ∧
        rawHallucinationScore sim answer (sourceTextsOf sources) ≤ 19/10) ∧
      ((get_risk_level (rawHallucinationScore sim answer
          (sourceTextsOf sources)) = "low" ↔
          rawHallucinationScore sim answer (sourceTextsOf sources) < 3/10) ∧
        (get_risk_level (rawHallucinationScore sim answer
          (sourceTextsOf sources)) = "medium" ↔
          (3/10 ≤ rawHallucinationScore sim answer (sourceTextsOf sources) ∧
            rawHallucinationScore sim answer (sourceTextsOf sources) < 3/5)) ∧
        (get_risk_level (rawHallucinationScore sim answer
          (sourceTextsOf sources)) = "high" ↔
          3/5 ≤ rawHallucinationScore sim answer (sourceTextsOf sources))) := by
  intro sim answer sources hans hsrc htex
  have hcond : ¬ (answer = "" ∨ sources.isEmpty = true) := by
    rintro (h | h)
    · exact hans h
    · exact hsrc (List.isEmpty_iff.mp h)
  have htex' : ¬ ((sourceTextsOf sources).isEmpty = true) := by
    intro h
    exact htex (List.isEmpty_iff.mp h)
  have hval : detect_hallucination sim answer sources =
      ⟨pyRound3 (rawHallucinationScore sim answer (sourceTextsOf sources)),
        pyRound3 (1 - rawHallucinationScore sim answer
          (sourceTextsOf sources)),
        get_risk_level (rawHallucinationScore sim answer
          (sourceTextsOf sources))⟩ := by
    simp only [detect_hallucination]
    rw [if_neg hcond, if_neg htex']
  refine ⟨⟨by rw [hval], by rw [hval]⟩, ?_, ?_, risk_level_iff _⟩
  · intro hsim
    have hb := rawHallucinationScore_bounds sim answer
      (sourceTextsOf sources) 0 htex hsim
    have h1 : rawHallucinationScore sim answer (sourceTextsOf sources) ≤ 1 :=
      by linarith [hb.2]
    refine ⟨hb.1, h1, ?_, ?_⟩
    · rw [hval]
      exact pyRound3_nonneg hb.1
    · rw [hval]
      exact pyRound3_le_one h1
  · intro hsim
    have hb := rawHallucinationScore_bounds sim answer
      (sourceTextsOf sources) (-1) htex hsim
    exact ⟨hb.1, by linarith [hb.2]⟩

/-- Witness for C8: with a constant similarity of `1`, the reported
hallucination score lies in `[0, 1]`. -/
theorem hallucination_range_witness :
    0 ≤ (detect_hallucination (fun _ _ => 1) "zebra"
        [⟨⟨1, 0, "t", "alpha"⟩, 0⟩]).hallucination_score ∧
    (detect_hallucination (fun _ _ => 1) "zebra"
        [⟨⟨1, 0, "t", "alpha"⟩, 0⟩]).hallucination_score ≤ 1 :=
  (((hallucination_range_and_cutoffs (fun _ _ => 1) "zebra"
      [⟨⟨1, 0, "t", "alpha"⟩, 0⟩] (by decide) (by decide)
      (by decide)).2.1 (fun t _ => ⟨zero_le_one, le_refl 1⟩)).2.2)

/-- Counterexample to C8 as stated: with answer–source cosine similarity
`-1` (sources the embedder maps opposite to the answer) the hallucination
score is `1.9`, outside the claimed `[0, 1]`. -/
theorem hallucination_score_counterexample :
    (detect_hallucination (fun _ _ => -1) "zebra"
      [⟨⟨1, 0, "t", "qqq"⟩, 0⟩]).hallucination_score = 19/10 ∧
    ¬ ((detect_hallucination (fun _ _ => -1) "zebra"
      [⟨⟨1, 0, "t", "qqq"⟩, 0⟩]).hallucination_score ≤ 1) := by
  have h1 : ((findWords (pyLower "zebra")).dedup).filter
      (fun w => w ∉ stopWords) = ["zebra"] := by decide
  have h2 : (((["qqq"] : List String).map
      (fun t => findWords (pyLower t))).flatten.dedup).filter
      (fun w => w ∉ stopWords) = ["qqq"] := by decide
  have h3 : (["zebra"] : List String).filter
      (fun w => w ∈ (["qqq"] : List String)) = [] := by decide
  have hkw : keywordOverlap "zebra" ["qqq"] = 0 := by
    simp only [keywordOverlap, h1, h2, h3]
    norm_num
  have hraw : rawHallucinationScore (fun _ _ => -1) "zebra" ["qqq"] =
      19/10 := by
    simp only [rawHallucinationScore, hkw, List.map_cons, List.map_nil,
      listMax, listMean, List.foldl_nil, List.sum_cons, List.sum_nil,
      List.length_cons, List.length_nil]
    norm_num
  have htexts : sourceTextsOf [⟨⟨1, 0, "t", "qqq"⟩, 0⟩] = ["qqq"] := by
    decide
  have hcond : ¬ (("zebra" : String) = "" ∨
      ([⟨⟨1, 0, "t", "qqq"⟩, (0 : ℚ)⟩] : List Hit).isEmpty = true) := by
    decide
  have hval : (detect_hallucination (fun _ _ => -1) "zebra"
      [⟨⟨1, 0, "t", "qqq"⟩, 0⟩]).hallucination_score =
      pyRound3 (19/10) := by
    simp only [detect_hallucination, htexts]
    rw [if_neg hcond]
    simp only [List.isEmpty_cons, hraw]
    rfl
  have hround : pyRound3 (19/10 : ℚ) = 19/10 := by
    unfold pyRound3
    rw [show (19/10 : ℚ) * 1000 = ((1900 : ℤ) : ℚ) by norm_num,
      roundHalfEven_intCast]
    norm_num
  rw [hval, hround]
  norm_num

/-! ### Claim C1: search result bounds, order, and coverage -/

lemma collectHits_length_le {metadata : List ChunkMeta}
    {docIds : Option (List Int)} {k : ℕ} :
    ∀ (cands : List (ℚ × ℕ)) (seen : List (Int × Int)) (count : ℕ),
      (collectHits metadata docIds k cands seen count).length ≤
        cands.length := by
  intro cands
  induction cands with
  | nil => intro seen count; simp [collectHits]
  | cons c rest ih =>
    obtain ⟨dist, idx⟩ := c
    intro seen count
    simp only [collectHits, List.length_cons]
    split
    · exact le_trans (ih _ _) (Nat.le_succ _)
    · split
      · exact le_trans (ih _ _) (Nat.le_succ _)
      · split
        · split
          · simp
          · exact le_trans (ih _ _) (Nat.le_succ _)
        · split
          · simp
          · simpa using Nat.succ_le_succ (ih _ _)

lemma candidateList_length (q : List ℚ) (v : List (List ℚ)) :
    (candidateList q v).length = v.length := by
  unfold candidateList
  rw [(List.perm_insertionSort distLE _).length_eq]
  simp

lemma mem_candidateList_lt {q : List ℚ} {v : List (List ℚ)} {c : ℚ × ℕ}
    (hc : c ∈ candidateList q v) : c.2 < v.length := by
  unfold candidateList at hc
  rw [List.mem_insertionSort] at hc
  rcases List.mem_map.mp hc with ⟨p, hp, rfl⟩
  have h1 : v.get? p.1 = some p.2 := List.mem_enum_iff_get?.mp hp
  rw [List.get?_eq_getElem?] at h1
  exact (List.getElem?_eq_some.mp h1).1

lemma enum_map_getD (v : List (List ℚ)) (m : List ChunkMeta)
    (hlen : v.length = m.length) :
    v.enum.map (fun p => m.getD p.1 default) = m := by
  apply List.ext_get
  · simp [hlen]
  · intro n h1 h2
    simp only [List.get_eq_getElem, List.getElem_map, List.getElem_enum]
    exact List.getD_eq_getElem _ _ h2

lemma enum_map_getD_chunkKey (q : List ℚ) (v : List (List ℚ))
    (m : List ChunkMeta) (hlen : v.length = m.length) :
    (v.enum.map (fun p => (sqDist q p.2, p.1))).map
      (fun c => chunkKey (m.getD c.2 default)) = m.map chunkKey := by
  rw [List.map_map]
  have h1 : (fun c : ℚ × ℕ => chunkKey (m.getD c.2 default)) ∘
      (fun p : ℕ × List ℚ => (sqDist q p.2, p.1)) =
      (fun p : ℕ × List ℚ => chunkKey (m.getD p.1 default)) := rfl
  rw [h1, show (fun p : ℕ × List ℚ => chunkKey (m.getD p.1 default)) =
    chunkKey ∘ (fun p : ℕ × List ℚ => m.getD p.1 default) from rfl,
    ← List.map_map, enum_map_getD v m hlen]

lemma collectHits_map_meta (metadata : List ChunkMeta) (k : ℕ) :
    ∀ (cands : List (ℚ × ℕ)) (seen : List (Int × Int)) (count : ℕ),
      (∀ c ∈ cands, c.2 < metadata.length) →
      count + cands.length ≤ k →
      (cands.map (fun c => chunkKey (metadata.getD c.2 default))).Nodup →
      (∀ c ∈ cands, chunkKey (metadata.getD c.2 default) ∉ seen) →
      (collectHits metadata none k cands seen count).map Hit.meta =
        cands.map (fun c => metadata.getD c.2 default) := by
  intro cands
  induction cands with
  | nil => intro seen count _ _ _ _; simp [collectHits]
  | cons c rest ih =>
    obtain ⟨dist, idx⟩ := c
    intro seen count hval hcnt hnd hdis
    have hidx : idx < metadata.length := hval (dist, idx) (by simp)
    have hget : metadata.get? idx = some (metadata.getD idx default) := by
      rw [List.get?_eq_getElem?, List.getElem?_eq_getElem hidx,
        List.getD_eq_getElem _ _ hidx]
    simp only [collectHits, hget]
    rw [List.map_cons] at hnd
    rw [if_neg (by simp [docFilterRejects])]
    rw [if_neg (hdis (dist, idx) (by simp))]
    by_cases hk : k ≤ count + 1
    · have hrest : rest = [] := by
        simp only [List.length_cons] at hcnt
        have : rest.length = 0 := by omega
        exact List.eq_nil_of_length_eq_zero this
      subst hrest
      rw [if_pos hk]
      simp
    · rw [if_neg hk]
      simp only [List.map_cons]
      congr 1
      apply ih
      · intro c hc
        exact hval c (by simp [hc])
      · simp only [List.length_cons] at hcnt
        omega
      · exact (List.nodup_cons.mp hnd).2
      · intro c hc
        rw [List.mem_cons]
        push_neg
        constructor
        · intro heq
          apply (List.nodup_cons.mp hnd).1
          rw [← heq]
          exact List.mem_map_of_mem _ hc
        · exact hdis c (by simp [hc])

/-- Claim C1 (amended): for every consistent stored state, `search` returns
at most `min(k, index_size)` hits sorted ascending by their (boosted)
`score` field; `k = 0` and the empty index give the empty list; and when no
document filter is passed, `k` at least the index size and pairwise-distinct
stored `(document_id, chunk_id)` keys make the result cover all stored
records. -/
theorem search_embeddings_bounded_sorted :
    ∀ (q : List ℚ) (k : ℕ) (docIds : Option (List Int)) (s : IndexState),
      I1 s →
      (search_embeddings q k docIds s).length ≤ min k s.metadata.length ∧
      List.Sorted scoreLE (search_embeddings q k docIds s) ∧
      (k = 0 → search_embeddings q k docIds s = []) ∧
      (s.metadata = [] → search_embeddings q k docIds s = []) ∧
      (docIds = none → s.metadata.length ≤ k →
        (s.metadata.map chunkKey).Nodup →
        List.Perm ((search_embeddings q k docIds s).map Hit.meta)
          s.metadata) := by
  intro q k docIds s hI
  have h2 : s.vectors.length = s.metadata.length := hI
  have hlen : (search_embeddings q k docIds s).length ≤
      min k s.metadata.length := by
    simp only [search_embeddings, load_of_I1 hI]
    split
    · simp
    · rw [List.length_take]
      apply min_le_min (le_refl k)
      rw [(List.perm_insertionSort scoreLE _).length_eq]
      refine le_trans (collectHits_length_le _ _ _) ?_
      rw [List.length_take]
      have hc := candidateList_length q s.vectors
      omega
  have hempty : s.metadata = [] → search_embeddings q k docIds s = [] := by
    intro hm
    have hv : s.vectors.length = 0 := by rw [h2, hm]; rfl
    simp only [search_embeddings, load_of_I1 hI]
    rw [if_pos hv]
  refine ⟨hlen, ?_, ?_, hempty, ?_⟩
  · simp only [search_embeddings]
    split
    · simp
    · exact List.Pairwise.sublist (List.take_sublist _ _)
        (List.sorted_insertionSort scoreLE _)
  · intro hk
    subst hk
    have h0 : (search_embeddings q 0 docIds s).length ≤ 0 := by
      simpa using hlen
    exact List.eq_nil_of_length_eq_zero (Nat.le_zero.mp h0)
  · intro hnone hk hnd
    subst hnone
    by_cases hz : s.vectors.length = 0
    · have hm : s.metadata = [] := by
        rw [hz] at h2
        exact List.eq_nil_of_length_eq_zero h2.symm
      rw [hempty hm, hm]
      simp only [List.map_nil]
      exact List.Perm.refl []
    · simp only [search_embeddings, load_of_I1 hI]
      rw [if_neg hz]
      have hsk : min (if docIdsTruthy none = true then k * 5 else k * 2)
          s.vectors.length = s.vectors.length := by
        simp only [docIdsTruthy, Bool.false_eq_true, if_false]
        apply min_eq_right
        omega
      rw [hsk, show (candidateList q s.vectors).take s.vectors.length =
          candidateList q s.vectors from by
        rw [← candidateList_length q s.vectors]
        exact List.take_length _]
      have hval : ∀ c ∈ candidateList q s.vectors,
          c.2 < s.metadata.length := by
        intro c hc
        have := mem_candidateList_lt hc
        omega
      have hperm : List.Perm (candidateList q s.vectors)
          (s.vectors.enum.map (fun p => (sqDist q p.2, p.1))) :=
        List.perm_insertionSort distLE _
      have hkeys : ((candidateList q s.vectors).map
          (fun c => chunkKey (s.metadata.getD c.2 default))).Nodup := by
        rw [(hperm.map _).nodup_iff,
          enum_map_getD_chunkKey q s.vectors s.metadata h2]
        exact hnd
      have hcnt : 0 + (candidateList q s.vectors).length ≤ k := by
        rw [candidateList_length]
        omega
      have hmap := collectHits_map_meta s.metadata k
        (candidateList q s.vectors) [] 0 hval hcnt hkeys
        (by intro c _; simp)
      have hcol_len : (collectHits s.metadata none k
          (candidateList q s.vectors) [] 0).length = s.metadata.length := by
        have hl := congrArg List.length hmap
        simp only [List.length_map] at hl
        rw [hl, candidateList_length]
        omega
      have htake : (List.insertionSort scoreLE (collectHits s.metadata none k
          (candidateList q s.vectors) [] 0)).take k =
          List.insertionSort scoreLE (collectHits s.metadata none k
            (candidateList q s.vectors) [] 0) := by
        apply List.take_of_length_le
        rw [(List.perm_insertionSort scoreLE _).length_eq, hcol_len]
        omega
      rw [htake]
      have hfinal : (s.vectors.enum.map
          (fun p => (sqDist q p.2, p.1))).map
          (fun c => s.metadata.getD c.2 default) = s.metadata := by
        rw [List.map_map]
        exact enum_map_getD s.vectors s.metadata h2
      refine List.Perm.trans
        ((List.perm_insertionSort scoreLE _).map _) ?_
      rw [hmap]
      refine List.Perm.trans (hperm.map _) ?_
      rw [hfinal]

/-- Witness for C1: on a consistent one-record index with `k = 1` the
search result covers the stored metadata. -/
theorem search_bounded_witness :
    List.Perm ((search_embeddings [0] 1 none
      ⟨[[0]], [⟨1, 0, "t", "x"⟩]⟩).map Hit.meta) [⟨1, 0, "t", "x"⟩] :=
  (search_embeddings_bounded_sorted [0] 1 none
    ⟨[[0]], [⟨1, 0, "t", "x"⟩]⟩ rfl).2.2.2.2 rfl (by decide) (by decide)

/-- Counterexample to C1 as stated: a stored state whose two records share
the `(document_id, chunk_id)` key — reachable by indexing the same document
twice — makes `search` with `k = 3 > 2` return a single deduplicated hit,
not all stored records. -/
theorem search_all_records_counterexample :
    (search_embeddings [0] 3 none
      ⟨[[0], [1]], [⟨1, 0, "t", "a"⟩, ⟨1, 0, "t", "b"⟩]⟩).length = 1 ∧
    (⟨[[0], [1]], [⟨1, 0, "t", "a"⟩, ⟨1, 0, "t", "b"⟩]⟩ :
      IndexState).metadata.length = 2 := by
  have hd0 : sqDist [(0 : ℚ)] [0] = 0 := by norm_num [sqDist]
  have hd1 : sqDist [(0 : ℚ)] [1] = 1 := by norm_num [sqDist]
  have hcand : candidateList [(0 : ℚ)] [[0], [1]] = [(0, 0), (1, 1)] := by
    unfold candidateList
    simp [List.enum, List.enumFrom, hd0, hd1, List.insertionSort,
      List.orderedInsert]
    norm_num [distLE]
  refine ⟨?_, rfl⟩
  simp only [search_embeddings, load_of_I1 (show I1 ⟨[[0], [1]],
    [⟨1, 0, "t", "a"⟩, ⟨1, 0, "t", "b"⟩]⟩ from rfl)]
  rw [if_neg (by decide)]
  rw [show min (if docIdsTruthy none = true then 3 * 5 else 3 * 2)
      ([[(0 : ℚ)], [1]] : List (List ℚ)).length = 2 from by
    simp [docIdsTruthy]]
  rw [hcand]
  simp [collectHits, List.get?, docFilterRejects, chunkKey,
    List.insertionSort, List.orderedInsert]
